import Mathlib

/-!
Shallow embedding of the order-analysis program (`analyzer/analyzer.py`,
`analyzer/types.py`).  Numeric columns are modelled over `ℚ`; the risk-score
curve needs the real exponential and is modelled over `ℝ`.  The column
named "risk (in percent)" in the source is the field `risk_percent` here.
-/

/-- Embeds `np.clip(x, lo, hi)` on integers: lower bound applied first, then upper. -/
def npClip (x lo hi : ℤ) : ℤ := min (max x lo) hi

/-- Rounding to the nearest integer as the `round` of Python and `np.round` do it:
ties (fractional part exactly 1/2) go to the nearest even integer. -/
def pyRound {K : Type} [LinearOrderedField K] [FloorRing K] (x : K) : ℤ :=
  if x - (⌊x⌋ : K) < 1 / 2 then ⌊x⌋
  else if (1 : K) / 2 < x - (⌊x⌋ : K) then ⌊x⌋ + 1
  else if 2 ∣ ⌊x⌋ then ⌊x⌋ else ⌊x⌋ + 1

/-- Embeds `pandas.Series.mean`: sum divided by length. -/
def mean (xs : List ℚ) : ℚ := xs.sum / xs.length

/-- Embeds `pandas.Series.var(ddof=0)`: population variance. -/
def popVar (xs : List ℚ) : ℚ := ((xs.map fun x => (x - mean xs) ^ 2).sum) / xs.length

/-- Embeds `np.percentile(xs, q)` (also `pandas.Series.quantile(q/100)`) with the
default linear interpolation: position `h = q/100 * (n-1)` in the sorted data,
interpolating between the neighbouring order statistics. -/
def npPercentile (q : ℚ) (xs : List ℚ) : ℚ :=
  let s := xs.insertionSort fun a b => a ≤ b
  if s.isEmpty then 0
  else
    let h : ℚ := q / 100 * ((s.length : ℚ) - 1)
    let i : ℕ := (⌊h⌋ : ℤ).toNat
    let lo := s.getD i 0
    let hi := s.getD (i + 1) lo
    lo + (h - (⌊h⌋ : ℚ)) * (hi - lo)

/-- Embeds `types.RISK`: frozen dataclass holding an integer score. -/
structure RISK where
  value : ℤ
deriving DecidableEq

/-- Embeds `types.GAIN`: frozen dataclass holding an integer score. -/
structure GAIN where
  value : ℤ
deriving DecidableEq

/-- Embeds `RISK.__post_init__`: constructing a RISK outside [1,10] raises `ValueError`. -/
def mkRISK (value : ℤ) : Except String RISK :=
  if 1 ≤ value ∧ value ≤ 10 then .ok ⟨value⟩
  else .error "RISK must be between 1 and 10"

/-- Embeds `GAIN.__post_init__`: constructing a GAIN outside [1,10] raises `ValueError`. -/
def mkGAIN (value : ℤ) : Except String GAIN :=
  if 1 ≤ value ∧ value ≤ 10 then .ok ⟨value⟩
  else .error "GAIN must be between 1 and 10"

/-- The raw risk curve of `Analyzer._calculate_risk`:
`score = 1 + 9 * (1 - np.exp(-expected_risk / 20))`. -/
noncomputable def riskRaw (expected_risk : ℝ) : ℝ :=
  1 + 9 * (1 - Real.exp (-expected_risk / 20))

/-- The integer risk score of `Analyzer._calculate_risk`, applied to the list of per-client of `risk_percent` values: `int(np.clip(round(score), 1, 10))`. -/
noncomputable def riskScore (xs : List ℚ) : ℤ :=
  npClip (pyRound (riskRaw ((mean xs : ℚ) : ℝ))) 1 10

/-- Embeds `Analyzer._calculate_risk` on the `risk_percent` column of one client: returns the
validated RISK together with the population variance, or the construction error. -/
noncomputable def calculate_risk (xs : List ℚ) : Except String (RISK × ℚ) :=
  match mkRISK (riskScore xs) with
  | .ok r => .ok (r, popVar xs)
  | .error e => .error e

/-- The integer gain score of `Analyzer._calculate_gain`, applied to the list of per-client of `margin_per_hour` values. -/
def gainScore (xs : List ℚ) : ℤ :=
  let avg_mph := mean xs
  let p10 := npPercentile 10 xs
  let p90 := npPercentile 90 xs
  if p90 = p10 then 5
  else npClip (pyRound ((avg_mph - p10) / (p90 - p10) * 9 + 1)) 1 10

/-- Embeds `Analyzer._calculate_gain` on the `margin_per_hour` column of one client. -/
def calculate_gain (xs : List ℚ) : Except String GAIN :=
  mkGAIN (gainScore xs)

/-- The classification chain of `Analyzer.print_client_risk_and_gain`. -/
def classify (gain risk : ℤ) (variance : ℚ) : String :=
  if 6 ≤ gain ∧ (6 ≤ risk ∨ 60 ≤ variance) then "Profitable but risky"
  else if gain ≤ 4 ∧ risk ≤ 4 ∧ variance ≤ 40 then "Unprofitable but stable"
  else if 6 ≤ gain then "Strong client"
  else if 6 ≤ risk ∨ 60 ≤ variance then "Risk exposure"
  else "Neutral"

/-- A row of the source table, with the base columns required by the program. -/
structure OrderRow where
  customer_id : String
  order_id : String
  processing_time_hr : ℚ
  costs : ℚ
  profit : ℚ
  risk_percent : ℚ
deriving DecidableEq

/-- The order table: the base rows together with the two derived columns,
each present (`some`, one value per row) or absent (`none`). -/
structure OrderTable where
  rows : List OrderRow
  contribution_margin : Option (List ℚ)
  margin_per_hour : Option (List ℚ)
deriving DecidableEq

/-- Embeds `Analyzer._prepare_columns`: add `contribution_margin = profit - costs` if
that column is absent, then add `margin_per_hour = contribution_margin /
processing_time_hr` (from the now-present column) if absent. -/
def prepare_columns (t : OrderTable) : OrderTable :=
  let cm : List ℚ :=
    match t.contribution_margin with
    | some c => c
    | none => t.rows.map fun r => r.profit - r.costs
  let mph : List ℚ :=
    match t.margin_per_hour with
    | some m => m
    | none => List.zipWith (fun c r => c / r.processing_time_hr) cm t.rows
  { t with contribution_margin := some cm, margin_per_hour := some mph }

/-- A row of the enriched table, as the analyses downstream of
`_prepare_columns` see it: the base columns plus the two derived columns. -/
structure ERow where
  customer_id : String
  order_id : String
  processing_time_hr : ℚ
  costs : ℚ
  profit : ℚ
  risk_percent : ℚ
  contribution_margin : ℚ
  margin_per_hour : ℚ
deriving DecidableEq

/-- Read the enriched table row-wise (both derived columns zipped with rows). -/
def toERows (t : OrderTable) : List ERow :=
  match t.contribution_margin, t.margin_per_hour with
  | some cms, some mphs =>
    (t.rows.zip (cms.zip mphs)).map fun p =>
      ⟨p.1.customer_id, p.1.order_id, p.1.processing_time_hr, p.1.costs,
        p.1.profit, p.1.risk_percent, p.2.1, p.2.2⟩
  | _, _ => []

/-- Embeds the `Analyzer.analyze_orders` body: boolean-mask filter (processing time above
the table-wide 75th percentile, margin per hour below the table-wide 25th
percentile, risk strictly above the constant 15), then
`sort_values("margin_per_hour")`. -/
def badOrdersOf (rows : List ERow) : List ERow :=
  let p75 := npPercentile 75 (rows.map fun r => r.processing_time_hr)
  let p25 := npPercentile 25 (rows.map fun r => r.margin_per_hour)
  (rows.filter fun r =>
      decide (p75 < r.processing_time_hr) && decide (r.margin_per_hour < p25) &&
        decide ((15 : ℚ) < r.risk_percent)).insertionSort
    fun a b => a.margin_per_hour ≤ b.margin_per_hour

/-- The mutable state of an `Analyzer` instance. -/
structure AnalyzerState where
  order_df : OrderTable
  bad_orders : Option (List ERow)
deriving DecidableEq

/-- Embeds `Analyzer.__init__`: copy the incoming table into `self.order_df`, set
`self.bad_orders = None`, then run `self._prepare_columns()` which mutates
`self.order_df` in place. -/
def analyzerInit (df : OrderTable) : AnalyzerState :=
  { order_df := prepare_columns df, bad_orders := none }

/-- Embeds `Analyzer.analyze_orders`: reads `self.order_df` and stores the filtered,
sorted selection in `self.bad_orders`; the order table is not written. -/
def analyze_orders (s : AnalyzerState) : AnalyzerState :=
  { s with bad_orders := some (badOrdersOf (toERows s.order_df)) }

/-- The fixed feature list of `Analyzer.analyze_margin`, in column order. -/
def marginFeatures : List String :=
  ["processing_time_hr", "costs", "profit", "risk (in percent)"]

/-- Embeds `Analyzer.analyze_margin`: the `margin_per_hour` column of the correlation
matrix over the features plus `margin_per_hour` itself, sorted descending by
coefficient.  The Pearson coefficients computed by pandas are abstracted as
the function `corr`; `sort_values(ascending=False)` is modelled as a stable
descending sort. -/
def analyze_margin (corr : String → ℚ) : List (String × ℚ) :=
  ((marginFeatures ++ ["margin_per_hour"]).map fun f => (f, corr f)).insertionSort
    fun a b => b.2 ≤ a.2

/-- The ranking reported by `Analyzer.print_characteristics`: the sorted
correlation pairs with the `margin_per_hour` entry itself skipped. -/
def reportedRanking (corr : String → ℚ) : List (String × ℚ) :=
  (analyze_margin corr).filter fun p => decide (p.1 ≠ "margin_per_hour")

/-! ### Helper lemmas -/

lemma pyRound_of_lt_half {K : Type} [LinearOrderedField K] [FloorRing K] {x : K}
    (h : x - (⌊x⌋ : K) < 1 / 2) : pyRound x = ⌊x⌋ := by
  unfold pyRound
  rw [if_pos h]

lemma pyRound_of_half_lt {K : Type} [LinearOrderedField K] [FloorRing K] {x : K}
    (h : 1 / 2 < x - (⌊x⌋ : K)) : pyRound x = ⌊x⌋ + 1 := by
  unfold pyRound
  rw [if_neg (by linarith), if_pos h]

lemma pyRound_of_tie {K : Type} [LinearOrderedField K] [FloorRing K] {x : K}
    (h : x - (⌊x⌋ : K) = 1 / 2) :
    pyRound x = if 2 ∣ ⌊x⌋ then ⌊x⌋ else ⌊x⌋ + 1 := by
  unfold pyRound
  rw [if_neg (by rw [h]; exact lt_irrefl _), if_neg (by rw [h]; exact lt_irrefl _)]

lemma pyRound_int_add_half {K : Type} [LinearOrderedField K] [FloorRing K] (n : ℤ) :
    pyRound ((n : K) + 1 / 2) = if 2 ∣ n then n else n + 1 := by
  have h0 : ⌊(1 / 2 : K)⌋ = 0 := by
    rw [Int.floor_eq_iff]
    constructor
    · norm_num
    · norm_num
  have hf : ⌊(n : K) + 1 / 2⌋ = n := by
    rw [Int.floor_int_add, h0, add_zero]
  have ht : (n : K) + 1 / 2 - (⌊(n : K) + 1 / 2⌋ : K) = 1 / 2 := by
    rw [hf]; ring
  rw [pyRound_of_tie ht, hf]

lemma npClip_bounds (x : ℤ) : 1 ≤ npClip x 1 10 ∧ npClip x 1 10 ≤ 10 := by
  unfold npClip
  omega

lemma npPercentile_eval (q v : ℚ) (xs s : List ℚ) (k : ℕ)
    (hs : List.insertionSort (fun a b => a ≤ b) xs = s)
    (hne : s ≠ [])
    (hh : q / 100 * ((s.length : ℚ) - 1) = v)
    (hk : ⌊v⌋ = (k : ℤ)) :
    npPercentile q xs =
      s.getD k 0 + (v - (k : ℚ)) * (s.getD (k + 1) (s.getD k 0) - s.getD k 0) := by
  have hne2 : s.isEmpty = false := by
    cases s with
    | nil => exact absurd rfl hne
    | cons a t => rfl
  simp only [npPercentile, hs, hh, hne2, Bool.false_eq_true, if_false, hk,
    Int.toNat_natCast, Int.cast_natCast]

lemma npPercentile_singleton (q x : ℚ) : npPercentile q [x] = x := by
  have h := npPercentile_eval q 0 [x] [x] 0
    (by simp [List.insertionSort, List.orderedInsert]) (by simp) (by norm_num) (by simp)
  simpa using h

lemma npPercentile_pair {q a b : ℚ} (hab : a ≤ b) (h0 : 0 ≤ q) (h1 : q < 100) :
    npPercentile q [a, b] = a + q / 100 * (b - a) := by
  have hk : ⌊q / 100⌋ = ((0 : ℕ) : ℤ) := by
    rw [Int.floor_eq_iff]
    push_cast
    constructor
    · linarith
    · linarith
  have h := npPercentile_eval q (q / 100) [a, b] [a, b] 0
    (by simp [List.insertionSort, List.orderedInsert, hab]) (by simp) (by norm_num) hk
  simpa using h

/-! ### Claim theorems -/

/-- C6: constructing a RISK or GAIN value object with an integer outside [1,10]
fails with a validation error, constructing with an integer in [1,10] succeeds,
and every RISK/GAIN instance produced by the constructor satisfies
`1 ≤ value ≤ 10`. -/
theorem value_objects_validate_range (v : ℤ) :
    (mkRISK v = .ok ⟨v⟩ ↔ 1 ≤ v ∧ v ≤ 10)
    ∧ (mkGAIN v = .ok ⟨v⟩ ↔ 1 ≤ v ∧ v ≤ 10)
    ∧ ((∃ e, mkRISK v = .error e) ↔ ¬(1 ≤ v ∧ v ≤ 10))
    ∧ ((∃ e, mkGAIN v = .error e) ↔ ¬(1 ≤ v ∧ v ≤ 10))
    ∧ (∀ r : RISK, mkRISK v = .ok r → 1 ≤ r.value ∧ r.value ≤ 10)
    ∧ (∀ g : GAIN, mkGAIN v = .ok g → 1 ≤ g.value ∧ g.value ≤ 10) := by
  unfold mkRISK mkGAIN
  by_cases h : 1 ≤ v ∧ v ≤ 10
  · refine ⟨by simp [h], by simp [h], by simp [h], by simp [h], ?_, ?_⟩
    · intro r hr
      simp only [if_pos h, Except.ok.injEq] at hr
      rw [← hr]
      exact h
    · intro g hg
      simp only [if_pos h, Except.ok.injEq] at hg
      rw [← hg]
      exact h
  · refine ⟨by simp [h], by simp [h], by simp [h], by simp [h], ?_, ?_⟩
    · intro r hr
      simp [if_neg h] at hr
    · intro g hg
      simp [if_neg h] at hg

/-- Witness for C6 at concrete inputs: 5 is accepted, 11 and 0 are rejected. -/
theorem value_objects_validate_range_witness :
    (mkRISK 5 = .ok ⟨5⟩) ∧ (∃ e, mkRISK 11 = .error e) ∧ (∃ e, mkGAIN 0 = .error e) :=
  ⟨((value_objects_validate_range 5).1).mpr (by norm_num),
   ((value_objects_validate_range 11).2.2.1).mpr (by norm_num),
   ((value_objects_validate_range 0).2.2.2.1).mpr (by norm_num)⟩

/-- C3: for gain and risk in [1,10] and variance at least 0, the classification
produces exactly one of the five labels, namely the label of the first rule
satisfied in the fixed evaluation order. -/
theorem classification_first_match (g r : ℤ) (v : ℚ)
    (hg : 1 ≤ g ∧ g ≤ 10) (hr : 1 ≤ r ∧ r ≤ 10) (hv : 0 ≤ v) :
    (classify g r v = "Profitable but risky" ↔ (6 ≤ g ∧ (6 ≤ r ∨ 60 ≤ v)))
    ∧ (classify g r v = "Unprofitable but stable" ↔
        (¬(6 ≤ g ∧ (6 ≤ r ∨ 60 ≤ v)) ∧ (g ≤ 4 ∧ r ≤ 4 ∧ v ≤ 40)))
    ∧ (classify g r v = "Strong client" ↔
        (¬(6 ≤ g ∧ (6 ≤ r ∨ 60 ≤ v)) ∧ ¬(g ≤ 4 ∧ r ≤ 4 ∧ v ≤ 40) ∧ 6 ≤ g))
    ∧ (classify g r v = "Risk exposure" ↔
        (¬(6 ≤ g ∧ (6 ≤ r ∨ 60 ≤ v)) ∧ ¬(g ≤ 4 ∧ r ≤ 4 ∧ v ≤ 40) ∧ ¬(6 ≤ g)
          ∧ (6 ≤ r ∨ 60 ≤ v)))
    ∧ (classify g r v = "Neutral" ↔
        (¬(6 ≤ g ∧ (6 ≤ r ∨ 60 ≤ v)) ∧ ¬(g ≤ 4 ∧ r ≤ 4 ∧ v ≤ 40) ∧ ¬(6 ≤ g)
          ∧ ¬(6 ≤ r ∨ 60 ≤ v)))
    ∧ (classify g r v = "Profitable but risky" ∨ classify g r v = "Unprofitable but stable"
        ∨ classify g r v = "Strong client" ∨ classify g r v = "Risk exposure"
        ∨ classify g r v = "Neutral") := by
  unfold classify
  split_ifs with h1 h2 h3 h4 <;>
    refine ⟨?_, ?_, ?_, ?_, ?_, ?_⟩ <;>
    simp_all

/-- Witness for C3: a high-gain high-risk client is classified by the first
rule, a low-gain low-risk low-variance client by the second. -/
theorem classification_first_match_witness :
    classify 7 7 0 = "Profitable but risky"
    ∧ classify 2 2 0 = "Unprofitable but stable" :=
  ⟨((classification_first_match 7 7 0 (by norm_num) (by norm_num) le_rfl).1).mpr
      (by norm_num),
   ((classification_first_match 2 2 0 (by norm_num) (by norm_num) le_rfl).2.1).mpr
      (by norm_num)⟩

/-- C10: the tie rule of the rounding used by both score computations is
round-half-to-even: at every fractional part of exactly 1/2 (over ℚ, the field
of the gain computation, and over ℝ, the field of the risk computation) the
value rounds to the nearest even integer; in particular 5.5 rounds to 6,
4.5 rounds to 4, and a client with `margin_per_hour` values [0, 0, 1/6, 1]
has raw gain score 4.5 and gain score 4. -/
theorem rounding_ties_to_even :
    (∀ n : ℤ, pyRound ((n : ℚ) + 1 / 2) = if 2 ∣ n then n else n + 1)
    ∧ (∀ n : ℤ, pyRound ((n : ℝ) + 1 / 2) = if 2 ∣ n then n else n + 1)
    ∧ pyRound ((11 : ℚ) / 2) = 6
    ∧ pyRound ((9 : ℚ) / 2) = 4
    ∧ gainScore [0, 0, 1 / 6, 1] = 4 := by
  refine ⟨fun n => pyRound_int_add_half n, fun n => pyRound_int_add_half n, ?_, ?_, ?_⟩
  · rw [show (11 : ℚ) / 2 = ((5 : ℤ) : ℚ) + 1 / 2 by norm_num, pyRound_int_add_half]
    norm_num
  · rw [show (9 : ℚ) / 2 = ((4 : ℤ) : ℚ) + 1 / 2 by norm_num, pyRound_int_add_half]
    norm_num
  · have hp10 : npPercentile 10 [0, 0, 1 / 6, 1] = 0 := by
      have h := npPercentile_eval 10 (3 / 10) [0, 0, 1 / 6, 1] [0, 0, 1 / 6, 1] 0
        (by norm_num [List.insertionSort, List.orderedInsert]) (by simp)
        (by norm_num) (by norm_num [Int.floor_eq_iff])
      simpa using h
    have hp90 : npPercentile 90 [0, 0, 1 / 6, 1] = 3 / 4 := by
      have h := npPercentile_eval 90 (27 / 10) [0, 0, 1 / 6, 1] [0, 0, 1 / 6, 1] 2
        (by norm_num [List.insertionSort, List.orderedInsert]) (by simp)
        (by norm_num) (by norm_num [Int.floor_eq_iff])
      rw [h]
      norm_num [List.getD]
    have hm : mean [0, 0, 1 / 6, 1] = 7 / 24 := by
      norm_num [mean]
    simp only [gainScore, hp10, hp90, hm]
    rw [if_neg (by norm_num)]
    rw [show (7 / 24 - 0 : ℚ) / (3 / 4 - 0) * 9 + 1 = ((4 : ℤ) : ℚ) + 1 / 2 by norm_num,
      pyRound_int_add_half]
    norm_num [npClip]

/-- Gain score written from the words of the spec (§4.3): if p90 == p10 the score is
fixed at 5, otherwise `round(scaled * 9 + 1)` clamped to [1,10]. -/
def specGainScore (xs : List ℚ) : ℤ :=
  let avg_mph := mean xs
  let p10 := npPercentile 10 xs
  let p90 := npPercentile 90 xs
  if p90 = p10 then 5
  else max 1 (min (pyRound ((avg_mph - p10) / (p90 - p10) * 9 + 1)) 10)

/-- C2: for every client group, the gain score is 5 when the per-client 10th and
90th `margin_per_hour` percentiles coincide (in particular for every single-row
client), and otherwise equals the clamped rounded rescaling of the client mean
between its own percentiles. -/
theorem gain_score_formula (x : ℚ) (xs : List ℚ) :
    gainScore (x :: xs) = specGainScore (x :: xs)
    ∧ (npPercentile 90 (x :: xs) = npPercentile 10 (x :: xs) → gainScore (x :: xs) = 5)
    ∧ (npPercentile 90 [x] = npPercentile 10 [x] ∧ gainScore [x] = 5) := by
  refine ⟨?_, ?_, ?_⟩
  · simp only [gainScore, specGainScore, npClip]
    split_ifs with h
    · rfl
    · omega
  · intro h
    simp only [gainScore, if_pos h]
  · rw [npPercentile_singleton, npPercentile_singleton]
    refine ⟨rfl, ?_⟩
    simp [gainScore, npPercentile_singleton]

/-- Witness for C2: a constant two-row client has p90 == p10 and gain score 5,
and a single-row client has gain score 5. -/
theorem gain_score_formula_witness :
    gainScore [2, 2] = specGainScore [2, 2]
    ∧ gainScore [2, 2] = 5
    ∧ gainScore [7] = 5 :=
  ⟨(gain_score_formula 2 [2]).1,
   (gain_score_formula 2 [2]).2.1 (by
      rw [npPercentile_pair le_rfl (by norm_num) (by norm_num),
        npPercentile_pair le_rfl (by norm_num) (by norm_num)]
      norm_num),
   (gain_score_formula 7 []).2.2.2⟩

/-- C7: on every client group the clamp keeps both scores inside [1,10], so the
RISK/GAIN construction-time validation never fails: both calculations return
`ok` results. -/
theorem scores_never_invalid (x : ℚ) (xs : List ℚ) :
    calculate_risk (x :: xs) = .ok (⟨riskScore (x :: xs)⟩, popVar (x :: xs))
    ∧ calculate_gain (x :: xs) = .ok ⟨gainScore (x :: xs)⟩ := by
  constructor
  · have hr : 1 ≤ riskScore (x :: xs) ∧ riskScore (x :: xs) ≤ 10 := by
      unfold riskScore
      exact npClip_bounds _
    unfold calculate_risk mkRISK
    rw [if_pos hr]
  · have hg : 1 ≤ gainScore (x :: xs) ∧ gainScore (x :: xs) ≤ 10 := by
      simp only [gainScore]
      split_ifs
      · norm_num
      · exact npClip_bounds _
    unfold calculate_gain mkGAIN
    rw [if_pos hg]

/-- C8: the column enrichment of `_prepare_columns` is idempotent, and columns
that are already present are left untouched. -/
theorem metric_deriver_idempotent (t : OrderTable) :
    prepare_columns (prepare_columns t) = prepare_columns t
    ∧ (∀ c, t.contribution_margin = some c →
        (prepare_columns t).contribution_margin = some c)
    ∧ (∀ m, t.margin_per_hour = some m →
        (prepare_columns t).margin_per_hour = some m) := by
  rcases t with ⟨rows, cm, mph⟩
  rcases cm with _ | c <;> rcases mph with _ | m <;> simp [prepare_columns]

/-- Witness for C8 on a concrete table whose derived columns are present. -/
theorem metric_deriver_idempotent_witness :
    prepare_columns (prepare_columns ⟨[], some [5], some [7]⟩)
      = prepare_columns ⟨[], some [5], some [7]⟩
    ∧ (prepare_columns ⟨[], some [5], some [7]⟩).contribution_margin = some [5]
    ∧ (prepare_columns ⟨[], some [5], some [7]⟩).margin_per_hour = some [7] :=
  ⟨(metric_deriver_idempotent _).1,
   (metric_deriver_idempotent _).2.1 [5] rfl,
   (metric_deriver_idempotent _).2.2 [7] rfl⟩

/-- C9: the enrichment mutates `self.order_df` in place, only appending the two
derived columns: the rows (hence all pre-existing columns and their order) are
unchanged, both derived columns are present afterwards, and the downstream
order analysis reads exactly that shared enriched table without writing it. -/
theorem metric_deriver_frame (t : OrderTable) :
    (analyzerInit t).order_df = prepare_columns t
    ∧ (prepare_columns t).rows = t.rows
    ∧ (∃ c, (prepare_columns t).contribution_margin = some c)
    ∧ (∃ m, (prepare_columns t).margin_per_hour = some m)
    ∧ (analyze_orders (analyzerInit t)).order_df = (analyzerInit t).order_df
    ∧ (analyze_orders (analyzerInit t)).bad_orders
        = some (badOrdersOf (toERows (prepare_columns t))) := by
  refine ⟨rfl, rfl, ⟨_, rfl⟩, ⟨_, rfl⟩, rfl, rfl⟩

/-- Risk score written from the words of the spec (§4.3): map the arithmetic-mean
expected risk through `1 + 9 * (1 - e^(-expected_risk / 20))`, round to the
nearest integer, clamp to [1,10]. -/
noncomputable def specRiskScore (xs : List ℚ) : ℤ :=
  max 1 (min (pyRound (1 + 9 * (1 - Real.exp (-((mean xs : ℚ) : ℝ) / 20)))) 10)

lemma exp_five_gt : (18 : ℝ) < Real.exp 5 := by
  have h1 : (2.7 : ℝ) < Real.exp 1 := by
    have h2 := Real.exp_one_gt_d9
    norm_num at h2 ⊢
    linarith
  have h3 : (2.7 : ℝ) ^ 5 < Real.exp 1 ^ 5 := by
    gcongr
  have h4 : Real.exp 1 ^ 5 = Real.exp 5 := by
    rw [← Real.exp_nat_mul]
    norm_num
  nlinarith

lemma exp_neg_five_lt : Real.exp (-5) < 1 / 18 := by
  rw [Real.exp_neg]
  have h := exp_five_gt
  rw [show (1 : ℝ) / 18 = 18⁻¹ by norm_num]
  exact inv_strictAnti₀ (by norm_num) h

/-- C1: for every client group the risk score is the clamped rounding of
`1 + 9 * (1 - e^(-expected_risk / 20))` with expected risk the arithmetic mean
of the `risk_percent` values of the client; a client with values [0, 0, 0] scores 1
and a client with values [100, 100, 100] scores 10. -/
theorem risk_score_formula (x : ℚ) (xs : List ℚ) :
    riskScore (x :: xs) = specRiskScore (x :: xs)
    ∧ riskScore [0, 0, 0] = 1
    ∧ riskScore [100, 100, 100] = 10 := by
  refine ⟨?_, ?_, ?_⟩
  · simp only [riskScore, specRiskScore, riskRaw, npClip]
    omega
  · have hm : mean [0, 0, 0] = 0 := by norm_num [mean]
    have hraw : riskRaw ((mean [0, 0, 0] : ℚ) : ℝ) = 1 := by
      rw [hm]
      unfold riskRaw
      norm_num
    have hfl : ⌊(1 : ℝ)⌋ = 1 := Int.floor_one
    have hpr : pyRound ((1 : ℝ)) = 1 := by
      rw [pyRound_of_lt_half (by rw [hfl]; norm_num), hfl]
    simp only [riskScore, hraw, hpr]
    norm_num [npClip]
  · have hm : mean [100, 100, 100] = 100 := by norm_num [mean]
    have hraw : riskRaw ((mean [100, 100, 100] : ℚ) : ℝ) = 1 + 9 * (1 - Real.exp (-5)) := by
      rw [hm]
      unfold riskRaw
      norm_num
    have hlo : (19 : ℝ) / 2 < 1 + 9 * (1 - Real.exp (-5)) := by
      have h := exp_neg_five_lt
      linarith
    have hhi : 1 + 9 * (1 - Real.exp (-5)) < 10 := by
      have h := Real.exp_pos (-5)
      linarith
    have hfl : ⌊(1 + 9 * (1 - Real.exp (-5)) : ℝ)⌋ = 9 := by
      rw [Int.floor_eq_iff]
      constructor
      · push_cast
        linarith
      · push_cast
        linarith
    have hpr : pyRound ((1 + 9 * (1 - Real.exp (-5)) : ℝ)) = 10 := by
      rw [pyRound_of_half_lt (by rw [hfl]; push_cast; linarith), hfl]
      norm_num
    simp only [riskScore, hraw, hpr]
    norm_num [npClip]

/-- C4: the Order Filter result consists of exactly the rows whose processing
time exceeds the table-wide 75th percentile, whose margin per hour is below
the table-wide 25th percentile, and whose risk percent exceeds the constant 15,
sorted ascending by margin per hour; when nothing matches the result is the
empty list, not an error. -/
theorem order_filter_correct (rows : List ERow) :
    List.Pairwise (fun a b : ERow => a.margin_per_hour ≤ b.margin_per_hour) (badOrdersOf rows)
    ∧ List.Perm (badOrdersOf rows)
        (rows.filter fun r =>
          decide (npPercentile 75 (rows.map fun t => t.processing_time_hr) < r.processing_time_hr)
            && decide (r.margin_per_hour < npPercentile 25 (rows.map fun t => t.margin_per_hour))
            && decide ((15 : ℚ) < r.risk_percent))
    ∧ (∀ r ∈ badOrdersOf rows, r ∈ rows
        ∧ npPercentile 75 (rows.map fun t => t.processing_time_hr) < r.processing_time_hr
        ∧ r.margin_per_hour < npPercentile 25 (rows.map fun t => t.margin_per_hour)
        ∧ 15 < r.risk_percent)
    ∧ ((∀ r ∈ rows,
          ¬(npPercentile 75 (rows.map fun t => t.processing_time_hr) < r.processing_time_hr
            ∧ r.margin_per_hour < npPercentile 25 (rows.map fun t => t.margin_per_hour)
            ∧ 15 < r.risk_percent)) → badOrdersOf rows = []) := by
  haveI : IsTrans ERow (fun a b => a.margin_per_hour ≤ b.margin_per_hour) :=
    ⟨fun a b c hab hbc => le_trans hab hbc⟩
  haveI : IsTotal ERow (fun a b => a.margin_per_hour ≤ b.margin_per_hour) :=
    ⟨fun a b => le_total _ _⟩
  refine ⟨?_, ?_, ?_, ?_⟩
  · simp only [badOrdersOf]
    exact List.sorted_insertionSort _ _
  · simp only [badOrdersOf]
    exact List.perm_insertionSort _ _
  · intro r hr
    simp only [badOrdersOf, List.mem_insertionSort, List.mem_filter, Bool.and_eq_true,
      decide_eq_true_eq] at hr
    exact ⟨hr.1, hr.2.1.1, hr.2.1.2, hr.2.2⟩
  · intro h
    simp only [badOrdersOf]
    have hf : (rows.filter fun r =>
        decide (npPercentile 75 (rows.map fun t => t.processing_time_hr) < r.processing_time_hr)
          && decide (r.margin_per_hour < npPercentile 25 (rows.map fun t => t.margin_per_hour))
          && decide ((15 : ℚ) < r.risk_percent)) = [] := by
      rw [List.filter_eq_nil_iff]
      intro a ha
      have h2 := h a ha
      simp only [Bool.and_eq_true, decide_eq_true_eq]
      tauto
    rw [hf]
    simp [List.insertionSort]

/-- Witness for C4: on a one-row table no row beats its own percentiles, so the
filter legitimately returns the empty selection. -/
theorem order_filter_correct_witness :
    badOrdersOf [⟨"A", "1", 3, 0, 0, 50, 0, 2⟩] = [] :=
  (order_filter_correct _).2.2.2 (by
    intro r hr
    rw [List.mem_singleton] at hr
    subst hr
    simp [npPercentile_singleton])

/-- C5: the reported margin-driver ranking contains exactly the (feature,
coefficient) pairs of the fixed feature set, sorted by coefficient descending
with ties kept in natural column order (stable sort), and the
`margin_per_hour` self-correlation entry is excluded from the report. -/
theorem margin_ranking_correct (corr : String → ℚ) :
    List.Pairwise (fun a b : String × ℚ => b.2 ≤ a.2) (reportedRanking corr)
    ∧ List.Perm (reportedRanking corr) (marginFeatures.map fun f => (f, corr f))
    ∧ (∀ p ∈ reportedRanking corr, p.1 ≠ "margin_per_hour")
    ∧ (∀ f g, [f, g].Sublist marginFeatures → corr f = corr g →
        [(f, corr f), (g, corr g)].Sublist (reportedRanking corr)) := by
  haveI : IsTrans (String × ℚ) (fun a b => b.2 ≤ a.2) :=
    ⟨fun a b c hab hbc => le_trans hbc hab⟩
  haveI : IsTotal (String × ℚ) (fun a b => b.2 ≤ a.2) :=
    ⟨fun a b => le_total _ _⟩
  refine ⟨?_, ?_, ?_, ?_⟩
  · have hs : List.Pairwise (fun a b : String × ℚ => b.2 ≤ a.2) (analyze_margin corr) := by
      simp only [analyze_margin]
      exact List.sorted_insertionSort _ _
    exact hs.sublist (List.filter_sublist _)
  · have hp : List.Perm (analyze_margin corr)
        ((marginFeatures ++ ["margin_per_hour"]).map fun f => (f, corr f)) := by
      simp only [analyze_margin]
      exact List.perm_insertionSort _ _
    have hp2 := hp.filter (fun p => decide (p.1 ≠ "margin_per_hour"))
    have hc : (((marginFeatures ++ ["margin_per_hour"]).map fun f => (f, corr f)).filter
        (fun p => decide (p.1 ≠ "margin_per_hour"))) = marginFeatures.map fun f => (f, corr f) := by
      simp [marginFeatures]
    exact (hp2.trans (hc ▸ List.Perm.refl _))
  · intro p hp
    simp only [reportedRanking, List.mem_filter, decide_eq_true_eq] at hp
    exact hp.2
  · intro f g hsub heq
    have h2 : [f, g].Sublist (marginFeatures ++ ["margin_per_hour"]) :=
      hsub.trans (List.sublist_append_left _ _)
    have h3 := h2.map fun x => (x, corr x)
    have h4 : [(f, corr f), (g, corr g)].Sublist (analyze_margin corr) := by
      simp only [analyze_margin]
      exact List.pair_sublist_insertionSort (le_of_eq heq.symm) (by simpa using h3)
    have hf : f ≠ "margin_per_hour" := by
      have hm : f ∈ marginFeatures := hsub.subset (by simp)
      intro hcontra
      rw [hcontra] at hm
      simp [marginFeatures] at hm
    have hg2 : g ≠ "margin_per_hour" := by
      have hm : g ∈ marginFeatures := hsub.subset (by simp)
      intro hcontra
      rw [hcontra] at hm
      simp [marginFeatures] at hm
    have h5 := h4.filter (fun p => decide (p.1 ≠ "margin_per_hour"))
    have h6 : ([(f, corr f), (g, corr g)].filter (fun p => decide (p.1 ≠ "margin_per_hour")))
        = [(f, corr f), (g, corr g)] := by
      simp [hf, hg2]
    rw [h6] at h5
    exact h5

/-- Witness for C5 with all coefficients equal: the report is sorted and the
tied features "costs" and "profit" stay in natural column order. -/
theorem margin_ranking_correct_witness :
    List.Pairwise (fun a b : String × ℚ => b.2 ≤ a.2) (reportedRanking fun _ => 0)
    ∧ [("costs", (0 : ℚ)), ("profit", (0 : ℚ))].Sublist (reportedRanking fun _ => 0) :=
  ⟨(margin_ranking_correct fun _ => 0).1,
   (margin_ranking_correct fun _ => 0).2.2.2 "costs" "profit" (by
      unfold marginFeatures
      apply List.Sublist.cons
      apply List.Sublist.cons₂
      apply List.Sublist.cons₂
      exact List.nil_sublist _) rfl⟩
